import Mathlib

/-!
Verification of the lightwood time-series mixer subsystem against its
natural-language specification.  The Python sources under
`lightwood/helpers/general.py`, `lightwood/mixer/sktime.py` and
`lightwood/mixer/lightgbm_array.py` are shallowly embedded below:
numeric cell values become rationals, pandas data frames become ordered
association lists of columns, in-place mutation becomes explicit state
passing, and Python exceptions become `Except` results.
-/

/-- Numeric cell values of the embedded data frames (Python floats). -/
abbrev Val := ℚ

/- ------------------------------------------------------------------ -/
/- lightwood/helpers/general.py : get_group_matches                    -/
/- ------------------------------------------------------------------ -/

/-- The `data['data']` payload handed to `get_group_matches`.  In the source
it is either a `pd.Series`, a 1-D `np.ndarray`, or a 2-D `np.ndarray`;
the function normalizes the first two shapes to 2-D in place. -/
inductive DataRep where
  | series (vals : List Val)
  | nd1 (vals : List Val)
  | nd2 (rows : List (List Val))
deriving DecidableEq, Repr

/-- Normalization performed by the two `isinstance` branches at the top of
`get_group_matches`: `np.vstack` of a scalar series and `np.expand_dims`
of a 1-D array both yield an (n, 1) matrix; a 2-D array is left alone. -/
def DataRep.normalize : DataRep → DataRep
  | .series vals => .nd2 (vals.map (fun v => [v]))
  | .nd1 vals => .nd2 (vals.map (fun v => [v]))
  | .nd2 rows => .nd2 rows

/-- The 2-D row view of a (normalized) payload. -/
def DataRep.rowsOf : DataRep → List (List Val)
  | .series vals => vals.map (fun v => [v])
  | .nd1 vals => vals.map (fun v => [v])
  | .nd2 rows => rows

/-- All numeric entries of the payload, flattened in row order. -/
def DataRep.entriesFlat : DataRep → List Val
  | .series vals => vals
  | .nd1 vals => vals
  | .nd2 rows => rows.flatten

/-- Number of rows of the payload. -/
def DataRep.rowCount : DataRep → ℕ
  | .series vals => vals.length
  | .nd1 vals => vals.length
  | .nd2 rows => rows.length

/-- The `data` dict argument of `get_group_matches`: the series payload under
`data['data']` plus `data['group_info']`, an insertion-ordered dict mapping
each grouping column to its per-row labels. -/
structure GData where
  data : DataRep
  group_info : List (String × List String)
deriving DecidableEq, Repr

/-- A `combination` argument: either the `'__default'` sentinel string or a
tuple of grouping-column values. -/
inductive Comb where
  | default
  | tup (vals : List String)
deriving DecidableEq, Repr

/-- Label list of one grouping column (`data['group_info'][key]`). -/
def colLabels (ginfo : List (String × List String)) (key : String) : List String :=
  (ginfo.lookup key).getD []

/-- Membership test of row `i` in the index set built for one
`(val, key)` pair: `set(i for i, elt in enumerate(group_info[key]) if elt == val)`. -/
def pairMatches (ginfo : List (String × List String)) (vk : String × String) (i : ℕ) : Bool :=
  (colLabels ginfo vk.2)[i]? == some vk.1

/-- Row `i` lies in the intersection of the per-pair index sets. -/
def combMatches (ginfo : List (String × List String)) (pairs : List (String × String))
    (i : ℕ) : Bool :=
  pairs.all (fun vk => pairMatches ginfo vk i)

/-- Embedding of `get_group_matches(data, combination)`.  The returned first
component is the post-call state of the caller's `data` dict (the source
mutates `data['data']` in place when normalizing it to 2-D).  Python
materializes the intersection of index sets as an unordered list; only its
membership is ever relevant, and the embedding fixes the ascending order by
filtering `range`. -/
def get_group_matches (d : GData) (c : Comb) : GData × (List ℕ × List (List Val)) :=
  let d' : GData := { d with data := d.data.normalize }
  let rows := d'.data.rowsOf
  match c with
  | .default =>
      let idxs := List.range rows.length
      (d', (idxs, idxs.map (fun i => rows.getD i [])))
  | .tup vals =>
      let keys := d'.group_info.map Prod.fst
      let pairs := vals.zip keys
      if pairs.isEmpty then (d', ([], []))
      else
        let idxs := (List.range rows.length).filter (combMatches d'.group_info pairs)
        (d', (idxs, idxs.map (fun i => rows.getD i [])))

/- ------------------------------------------------------------------ -/
/- lightwood/helpers/general.py : mase                                 -/
/- ------------------------------------------------------------------ -/

/-- Ground-truth matrix cells: `none` models a NaN entry. -/
abbrev TrueCell := Option Val

/-- Scale divisor actually used by `mase` after its guard
`if scale_error == 0: scale_error = 1`. -/
def maseScale (scale_error : Val) : Val :=
  if scale_error = 0 then 1 else scale_error

/-- `nan_mask = (~np.isnan(trues)).astype(int)` applied to one row. -/
def nanMaskRow (trow : List TrueCell) : List Val :=
  trow.map (fun c => if c.isSome then 1 else 0)

/-- `np.nan_to_num(trues, 0.0)` applied to one row. -/
def nanToNumRow (trow : List TrueCell) : List Val :=
  trow.map (fun c => c.getD 0)

/-- Elementwise product of two rows (`preds *= nan_mask`). -/
def mulRows (a b : List Val) : List Val :=
  (a.zip b).map (fun p => p.1 * p.2)

/-- Column `i` of a row-major matrix (`trues[:, i]`), with absent entries
read as 0 (inputs are rectangular in every source call site). -/
def colOf (m : List (List Val)) (i : ℕ) : List Val :=
  m.map (fun row => row.getD i 0)

/-- `sklearn.metrics.mean_absolute_error`. -/
def mean_absolute_error (t p : List Val) : Val :=
  (((t.zip p).map (fun x => |x.1 - x.2|)).sum) / t.length

/-- Embedding of `mase(trues, preds, scale_error, fh)`:** masks predictions
where the truth is NaN, zero-fills NaN truths, averages the per-timestep
mean absolute errors over the horizon, and divides by the guarded scale. -/
def mase (trues : List (List TrueCell)) (preds : List (List Val))
    (scale_error : Val) (fh : ℕ) : Val :=
  let scale := maseScale scale_error
  let preds' := (trues.zip preds).map (fun rp => mulRows rp.2 (nanMaskRow rp.1))
  let trues' := trues.map nanToNumRow
  let agg := ((List.range fh).map
    (fun i => mean_absolute_error (colOf trues' i) (colOf preds' i))).sum
  (agg / fh) / scale

/- ------------------------------------------------------------------ -/
/- lightwood/mixer/sktime.py : SkTime.__call__                         -/
/- ------------------------------------------------------------------ -/

/-- A fitted sktime forecaster as `SkTime.__call__` consumes it: the
`is_fitted` flag probed during model resolution, the optional
`(_cutoff, d)` attributes of the base submodel (absent for forecasters
without them, in which case the minimum offset is minus infinity), and the
forecast function over an explicit list of relative horizon indices
(`model.predict(np.arange(start_idx, end_idx))`). -/
structure Forecaster where
  is_fitted : Bool
  cutoff_d : Option (Int × Option Int) := none
  predict : List Int → List Val

/-- The mixer state that `SkTime.__call__` reads: the per-group model table
(dict keyed by `frozenset(group)`), the `'__default'` entry, the horizon
length `n_ts_predictions`, and whether the task has grouping columns. -/
structure SkTimeState where
  models : List (List String × Forecaster)
  defaultModel : Forecaster
  n_ts_predictions : ℕ
  grouped : Bool

/-- Value-set equality of group tuples, modelling Python `frozenset`
comparison of the keys stored in `self.models`. -/
def setEqKey (a b : List String) : Bool :=
  a.all (fun x => b.contains x) && b.all (fun x => a.contains x)

/-- `self.models.get(frozenset(group), False)`. -/
def lookupModel (models : List (List String × Forecaster)) (g : List String) :
    Option Forecaster :=
  (models.find? (fun e => setEqKey e.1 g)).map Prod.snd

/-- Model resolution of `SkTime.__call__`: the group's own model when present
and fitted, otherwise the `'__default'` model. -/
def resolveModel (st : SkTimeState) (g : List String) : Forecaster :=
  match lookupModel st.models g with
  | some f => if f.is_fitted then f else st.defaultModel
  | none => st.defaultModel

/-- Whether resolution falls back to the default model (the branch that logs
the novel-group warning). -/
def usesDefault (st : SkTimeState) (g : List String) : Bool :=
  match lookupModel st.models g with
  | some f => !f.is_fitted
  | none => true

/-- `np.arange(s, e)` over integers. -/
def intRange (s e : Int) : List Int :=
  (List.range (e - s).toNat).map (fun k => s + (k : Int))

/-- The forecast `_call_groupmodel` computes for the series element at
position `pos` (after the series index reset): horizon indices run from
`max(1 + pos + offset, min_offset)` to `1 + pos + offset + n_ts_predictions`,
where `min_offset = -submodel._cutoff + (submodel.d or 0) + 1` when the
submodel exposes those attributes and is minus infinity otherwise. -/
def predictAt (H : ℕ) (f : Forecaster) (pos : ℕ) (offset : Int) : List Val :=
  let base : Int := 1 + (pos : Int) + offset
  let start : Int :=
    match f.cutoff_d with
    | some cd => max base (-cd.1 + cd.2.getD 0 + 1)
    | none => base
  f.predict (intRange start (base + (H : Int)))

/-- Inner loop of `_call_groupmodel`: walks the series positions in order,
writing the forecast for position `pos` into the output table at that
element's original row index.  The series values themselves are never read
by the source loop (`for idx, _ in enumerate(series.iteritems())`); only the
positions and the original indices matter. -/
def call_groupmodel_go (H : ℕ) (f : Forecaster) (offset : Int) :
    ℕ → List ℕ → List (Option (List Val)) → List (Option (List Val))
  | _, [], ydf => ydf
  | pos, j :: rest, ydf =>
      call_groupmodel_go H f offset (pos + 1) rest
        (ydf.set j (some (predictAt H f pos offset)))

/-- Embedding of `SkTime._call_groupmodel(ydf, model, series, offset)`;
`origIdx` is the (sorted) original index of the series. -/
def call_groupmodel (H : ℕ) (f : Forecaster) (offset : Int)
    (origIdx : List ℕ) (ydf : List (Option (List Val))) : List (Option (List Val)) :=
  call_groupmodel_go H f offset 0 origIdx ydf

/-- Insertion of a value into a sorted list, for the embedding of Python's
`sorted()` on index lists. -/
def insertNat (x : ℕ) : List ℕ → List ℕ
  | [] => [x]
  | y :: t => if x ≤ y then x :: y :: t else y :: insertNat x t

/-- `sorted(series_idxs)`. -/
def sortNat : List ℕ → List ℕ
  | [] => []
  | x :: t => insertNat x (sortNat t)

/-- `itertools.product` over a list of candidate-value lists, rightmost
factor varying fastest. -/
def listProduct : List (List String) → List (List String)
  | [] => [[]]
  | xs :: rest => xs.flatMap (fun x => (listProduct rest).map (fun t => x :: t))

/-- Total size of an (n, m) value array (`series_data.size`). -/
def arraySize (vals : List (List Val)) : ℕ :=
  (vals.map List.length).sum

/-- Accumulator of the group loop in `SkTime.__call__`: the mutable `data`
dict, the output table `ydf` (cells still to be written are `none`; the
source fills them with the scalar 0), the pending index set, and the novel
groups warned about so far. -/
structure SkAcc where
  d : GData
  ydf : List (Option (List Val))
  pending : List ℕ
  warns : List (List String)

/-- One iteration of `for group in all_group_combinations` in
`SkTime.__call__`. -/
def skStep (st : SkTimeState) (offset : Int) (acc : SkAcc) (g : List String) : SkAcc :=
  let r := get_group_matches acc.d (.tup g)
  let idxs := r.2.1
  let vals := r.2.2
  if 0 < arraySize vals then
    let sIdxs := sortNat idxs
    let f := resolveModel st g
    { d := r.1,
      ydf := call_groupmodel st.n_ts_predictions f offset sIdxs acc.ydf,
      pending := acc.pending.filter (fun i => !sIdxs.contains i),
      warns := if usesDefault st g then acc.warns ++ [g] else acc.warns }
  else { acc with d := r.1 }

/-- Result of `SkTime.__call__`: the prediction table (one entry per input
row, in input-row order) and the groups for which the default-model warning
was logged. -/
structure SkOut where
  preds : List (Option (List Val))
  warns : List (List String)

/-- Embedding of `SkTime.__call__`.  `target` is the target column of the
input frame in original row order and `labels` maps each grouping column to
its per-row labels.  The combinations iterated over are the product of the
value sets observed per grouping column; rows matched by no combination are
finally routed to the default model (`pending_idxs` branch).  The embedding
is a total function: this code path raises no exception. -/
def skCall (st : SkTimeState) (target : List Val)
    (labels : List (String × List String)) (offset : Int) : SkOut :=
  let n := target.length
  let ginfo := if st.grouped then labels else []
  let d0 : GData := { data := .series target, group_info := ginfo }
  let combos := listProduct (ginfo.map (fun kv => kv.2.dedup))
  let acc0 : SkAcc := { d := d0, ydf := List.replicate n none,
                        pending := List.range n, warns := [] }
  let acc := combos.foldl (skStep st offset) acc0
  if acc.pending.isEmpty then { preds := acc.ydf, warns := acc.warns }
  else
    { preds := call_groupmodel st.n_ts_predictions st.defaultModel offset
        (sortNat acc.pending) acc.ydf,
      warns := acc.warns }

/-- The tuple of grouping-column values of row `i` (the combination the row
belongs to). -/
def rowTuple (ginfo : List (String × List String)) (i : ℕ) : List String :=
  ginfo.map (fun kv => (kv.2[i]?).getD "")

/-- The ascending row indices of group `g` among `n` rows — the sorted index
set `get_group_matches` yields for a full combination tuple. -/
def groupIdxs (ginfo : List (String × List String)) (g : List String) (n : ℕ) : List ℕ :=
  (List.range n).filter (combMatches ginfo (g.zip (ginfo.map Prod.fst)))

/-- The prediction `SkTime.__call__` emits for row `i`: the forecast of the
model resolved for the row's group, at the row's position within its group's
sorted series, for the given offset. -/
def targetPred (st : SkTimeState) (ginfo : List (String × List String)) (n : ℕ)
    (offset : Int) (i : ℕ) : List Val :=
  predictAt st.n_ts_predictions (resolveModel st (rowTuple ginfo i))
    ((groupIdxs ginfo (rowTuple ginfo i) n).indexOf i) offset

/- ------------------------------------------------------------------ -/
/- lightwood/mixer/sktime.py : per-group fitting in SkTime._fit        -/
/- ------------------------------------------------------------------ -/

/-- Outcome behaviour of one group's series during `SkTime._fit`: whether
the filtered series is longer than the window (`series_data.size >
tss.window`; if not, no fit is attempted for the group), whether fitting
the configured `TransformedTargetForecaster` pipeline raises, and whether
the retry fit of the parameter-free `model_class()` instantiation raises. -/
structure GroupFitBehavior where
  bigEnough : Bool
  pipelineFitThrows : Bool
  defaultFitThrows : Bool
deriving DecidableEq, Repr

/-- How a group's model ended up after `SkTime._fit` processed it. -/
inductive GroupFitResult where
  | skipped
  | fittedPipeline
  | fittedDefaultClass
deriving DecidableEq, Repr

/-- Number of `fit` attempts made for a group with the given result. -/
def fitAttempts : GroupFitResult → ℕ
  | .skipped => 0
  | .fittedPipeline => 1
  | .fittedDefaultClass => 2

/-- Per-group control flow of `SkTime._fit` lines 182-186: the first fit of
the configured pipeline is wrapped in `try`, its exception handler replaces
the model by a parameter-free `model_class()` and fits again — but that
retry fit is not itself guarded, so a second exception escapes. -/
def fitOneGroup (b : GroupFitBehavior) : Except Unit GroupFitResult :=
  if !b.bigEnough then .ok .skipped
  else if !b.pipelineFitThrows then .ok .fittedPipeline
  else if !b.defaultFitThrows then .ok .fittedDefaultClass
  else .error ()

/-- The result `SkTime._fit` produces for a group whose retry (if reached)
succeeds. -/
def expectedFit (b : GroupFitBehavior) : GroupFitResult :=
  if !b.bigEnough then .skipped
  else if !b.pipelineFitThrows then .fittedPipeline
  else .fittedDefaultClass

/-- The group loop of `SkTime._fit`: groups are processed in order and an
uncaught exception aborts the loop (models fitted before the failing group
stay in `self.models`, but the `fit` call as a whole raises, reported here
as `Except.error` carrying the failing group's name). -/
def sktimeFitGroups :
    List (String × GroupFitBehavior) → Except String (List (String × GroupFitResult))
  | [] => .ok []
  | gb :: rest =>
      match fitOneGroup gb.2 with
      | .ok r => (sktimeFitGroups rest).map (fun rs => (gb.1, r) :: rs)
      | .error _ => .error gb.1

/- ------------------------------------------------------------------ -/
/- lightwood/mixer/lightgbm_array.py : data-frame model                -/
/- ------------------------------------------------------------------ -/

/-- A data-frame cell: a numeric scalar, a window list (historical-context
and ordering columns hold Python lists), or a string (grouping columns). -/
inductive Cell where
  | num (q : Val)
  | arr (l : List Val)
  | str (s : String)
deriving DecidableEq, Repr

/-- A pandas data frame as an insertion-ordered association list of columns.
Equality of two frames is exactly: same column set (in order), same row
count and same values. -/
structure DFrame where
  cols : List (String × List Cell)
deriving DecidableEq, Repr

/-- Whether the frame has a column of the given name. -/
def DFrame.hasCol (df : DFrame) (name : String) : Bool :=
  df.cols.any (fun c => c.1 == name)

/-- Cells of a column, empty when absent. -/
def DFrame.getCol (df : DFrame) (name : String) : List Cell :=
  (df.cols.lookup name).getD []

/-- Column assignment `df[name] = vals`: replaces an existing column in
place, otherwise appends the new column at the end (pandas semantics). -/
def DFrame.setCol (df : DFrame) (name : String) (vals : List Cell) : DFrame :=
  if df.hasCol name then
    { cols := df.cols.map (fun c => if c.1 == name then (c.1, vals) else c) }
  else { cols := df.cols ++ [(name, vals)] }

/-- `df.pop(name)`: removes a column. -/
def DFrame.dropCol (df : DFrame) (name : String) : DFrame :=
  { cols := df.cols.filter (fun c => !(c.1 == name)) }

/-- Number of rows of the frame. -/
def DFrame.nrows (df : DFrame) : ℕ :=
  match df.cols with
  | [] => 0
  | c :: _ => c.2.length

/-- Value-set equality of group-cell tuples (Python `frozenset` keys of the
delta table). -/
def cellSetEq (a b : List Cell) : Bool :=
  a.all (fun x => b.contains x) && b.all (fun x => a.contains x)

/-- The time-series configuration `_displace_ds` reads: the target name,
`tss.order_by`, `tss.group_by`, and the per-group per-column delta table
with its `'__default'` entry. -/
structure TsCfg where
  target : String
  order_by : List String
  group_by : List String
  deltas : List (List Cell × List (String × Val))
  defaultDeltas : List (String × Val)

/-- Step-`t`-labelled variant column name (`f'{target}_timestep_{t}'`). -/
def tsColName (target : String) (t : ℕ) : String :=
  target ++ "_timestep_" ++ toString t

/-- History column name (`f'__mdb_ts_previous_{target}'`). -/
def histColName (target : String) : String :=
  "__mdb_ts_previous_" ++ target

/-- The group tuple of row `i` (`frozenset(row[group_by])`), or `none` for
the `'__default'` group of ungrouped tasks. -/
def rowGroupOf (cfg : TsCfg) (df : DFrame) (i : ℕ) : Option (List Cell) :=
  if cfg.group_by.isEmpty then none
  else some (cfg.group_by.map (fun gc => ((df.getCol gc)[i]?).getD (.num 0)))

/-- `deltas.get(group, deltas['__default'])[col]` (a column missing from the
chosen delta entry would raise a `KeyError` in the source; the embedding
reads it as 0, and no claim depends on that case). -/
def deltaFor (cfg : TsCfg) (g : Option (List Cell)) (col : String) : Val :=
  match g with
  | none => (cfg.defaultDeltas.lookup col).getD 0
  | some key =>
      match cfg.deltas.find? (fun e => cellSetEq e.1 key) with
      | some e => (e.2.lookup col).getD 0
      | none => (cfg.defaultDeltas.lookup col).getD 0

/-- `row.get(histcol)[1:] + [row.get('__mdb_predictions')]`: slides the
history window one step, appending the prediction.  A non-list cell would
raise a `TypeError` in the source; the embedding leaves it unchanged. -/
def cellShiftAppend (c : Cell) (pred : Val) : Cell :=
  match c with
  | .arr l => .arr (l.drop 1 ++ [pred])
  | c => c

/-- `row.get(col)[1:] + [row.get(col)[-1] + delta]`: slides an ordering
window, advancing the last timestamp by the group's delta. -/
def cellShiftDelta (c : Cell) (delta : Val) : Cell :=
  match c with
  | .arr l => .arr (l.drop 1 ++ [l.getLastD 0 + delta])
  | c => c

/-- Embedding of `LightGBMArrayAR._displace_ds(data, predictions, timestep)`.
The source iterates rows and writes each updated cell back with `df.at`;
since every update reads only that row's own pre-iteration cells, the row
loop is equivalent to the per-column maps below.  It then substitutes the
step-`timestep` target variant into the target column when present, and
drops the temporary prediction column it added first. -/
def displace_ds (cfg : TsCfg) (df : DFrame) (preds : List Val) (timestep : ℕ) :
    DFrame :=
  let df1 := df.setCol "__mdb_predictions" (preds.map Cell.num)
  let hc := histColName cfg.target
  let df2 :=
    if df1.hasCol hc then
      df1.setCol hc ((List.range df1.nrows).map (fun i =>
        cellShiftAppend (((df1.getCol hc)[i]?).getD (.num 0)) (preds.getD i 0)))
    else df1
  let df3 := cfg.order_by.foldl (fun d col =>
    if d.hasCol col then
      d.setCol col ((List.range d.nrows).map (fun i =>
        cellShiftDelta (((d.getCol col)[i]?).getD (.num 0))
          (deltaFor cfg (rowGroupOf cfg d i) col)))
    else d) df2
  let tc := tsColName cfg.target timestep
  let df4 := if df3.hasCol tc then df3.setCol cfg.target (df3.getCol tc) else df3
  df4.dropCol "__mdb_predictions"

/- ------------------------------------------------------------------ -/
/- lightwood/mixer/lightgbm_array.py : LightGBMArrayAR.__call__        -/
/- ------------------------------------------------------------------ -/

/-- Result of `LightGBMArrayAR.__call__`: the data frames the caller's
datasets hold after the call returns, and the per-timestep prediction
columns of `ydf` (concatenated over the underlying datasets in order). -/
structure ArOut where
  frames : List DFrame
  ydf : List (List Val)

/-- One `timestep` iteration of the prediction loop of
`LightGBMArrayAR.__call__`: predict each underlying dataset with the step-1
regressor (`predict`, the external LightGBM submodel), then — while steps
remain — displace each dataset with its own predictions. -/
def arStep (predict : DFrame → List Val) (cfg : TsCfg) (H : ℕ)
    (acc : List DFrame × List (List Val)) (t : ℕ) : List DFrame × List (List Val) :=
  let preds := acc.1.map predict
  let dss :=
    if t + 1 < H then
      (acc.1.zip preds).map (fun dp => displace_ds cfg dp.1 dp.2 (t + 1))
    else acc.1
  (dss, acc.2 ++ [preds.flatten])

/-- Embedding of `LightGBMArrayAR.__call__` on the list of underlying
data frames (a `ConcatedEncodedDs` contributes its constituents): the
original frames are deep-copied up front, the prediction loop walks all `H`
steps displacing in between, and the loop is followed by the restore loop
`ds.data_frame = original_dfs[i]`. -/
def LightGBMArrayAR.call (predict : DFrame → List Val) (cfg : TsCfg) (H : ℕ)
    (dss : List DFrame) : ArOut :=
  let originals := dss
  let res := (List.range H).foldl (arStep predict cfg H) (dss, [])
  { frames := originals, ydf := res.2 }

/-- Inner dataset loop of one timestep when the external submodel may raise
(`Except.error`): datasets are predicted and displaced one at a time, so an
exception part-way leaves the earlier datasets of this step displaced.  The
error value carries the frames the caller is left holding. -/
def arInnerE (predict : DFrame → Except String (List Val)) (cfg : TsCfg) (H t : ℕ) :
    List DFrame → List DFrame → List (List Val) →
    Except (String × List DFrame) (List DFrame × List (List Val))
  | [], done, preds => .ok (done, preds)
  | ds :: rest, done, preds =>
      match predict ds with
      | .error msg => .error (msg, done ++ ds :: rest)
      | .ok p =>
          let ds' := if t + 1 < H then displace_ds cfg ds p (t + 1) else ds
          arInnerE predict cfg H t rest (done ++ [ds']) (preds ++ [p])

/-- Timestep loop of `LightGBMArrayAR.__call__` with a fallible submodel. -/
def arLoopE (predict : DFrame → Except String (List Val)) (cfg : TsCfg) (H : ℕ) :
    List ℕ → List DFrame → List (List Val) →
    Except (String × List DFrame) (List DFrame × List (List Val))
  | [], dss, cols => .ok (dss, cols)
  | t :: ts, dss, cols =>
      match arInnerE predict cfg H t dss [] [] with
      | .error e => .error e
      | .ok r => arLoopE predict cfg H ts r.1 (cols ++ [r.2.flatten])

/-- `LightGBMArrayAR.__call__` when the external submodel may raise.  The
method has no `try`/`finally`: the restore loop runs only after the
prediction loop completes, so an exception propagates with the datasets
still displaced (the `Except.error` payload is the caller-visible frames). -/
def LightGBMArrayAR.callE (predict : DFrame → Except String (List Val))
    (cfg : TsCfg) (H : ℕ) (dss : List DFrame) : Except (String × List DFrame) ArOut :=
  match arLoopE predict cfg H (List.range H) dss [] with
  | .error e => .error e
  | .ok r => .ok { frames := dss, ydf := r.2 }

/- ------------------------------------------------------------------ -/
/- lightwood/mixer/lightgbm_array.py : fitting                         -/
/- ------------------------------------------------------------------ -/

/-- Step loop of `LightGBMArray.fit` (and `partial_fit`): for step `t > 0`
the target column is overwritten with the step-`t` variant column in both
frames, then step `t`'s regressor is fitted on the current frames.  Returns
the final frames and, per step, the frames the step's regressor saw. -/
def lgbmArrayFitGo (target : String) :
    List ℕ → DFrame → DFrame → (DFrame × DFrame) × List (DFrame × DFrame)
  | [], tr, dv => ((tr, dv), [])
  | t :: ts, tr, dv =>
      let tr' := if 0 < t then tr.setCol target (tr.getCol (tsColName target t)) else tr
      let dv' := if 0 < t then dv.setCol target (dv.getCol (tsColName target t)) else dv
      let rest := lgbmArrayFitGo target ts tr' dv'
      (rest.1, (tr', dv') :: rest.2)

/-- Embedding of `LightGBMArray.fit(train_data, dev_data)` with horizon `H`:
the state of the two data frames after the call, plus the training record. -/
def LightGBMArray.fit (H : ℕ) (target : String) (tr dv : DFrame) :
    (DFrame × DFrame) × List (DFrame × DFrame) :=
  lgbmArrayFitGo target (List.range H) tr dv

/-- One iteration of the exhaustive-fitting loop of `LightGBMArrayAR.fit`:
predict both frames with the current submodel, displace them with those
predictions, and refit (counted in the second component). -/
def arFitStep (predict : ℕ → DFrame → List Val) (cfg : TsCfg)
    (acc : (DFrame × DFrame) × ℕ) (t : ℕ) : (DFrame × DFrame) × ℕ :=
  ((displace_ds cfg acc.1.1 (predict acc.2 acc.1.1) t,
    displace_ds cfg acc.1.2 (predict acc.2 acc.1.2) t), acc.2 + 1)

/-- Embedding of `LightGBMArrayAR.fit`.  `predict k` is the external
LightGBM submodel after `k` fit passes (each `super().fit` retrains it).
The initial `super().fit(*data)` always runs; in exhaustive mode the loop
`for timestep in range(1, n_ts_predictions)` predicts both frames with the
current model, displaces them, refits, and the original frames are restored
at the end.  Returns the caller-visible frames and the number of
`super().fit` passes performed. -/
def LightGBMArrayAR.fit (predict : ℕ → DFrame → List Val) (cfg : TsCfg) (H : ℕ)
    (exhaustive : Bool) (tr dv : DFrame) : (DFrame × DFrame) × ℕ :=
  let nFits := 1
  if exhaustive then
    let res := ((List.range (H - 1)).map (fun k => k + 1)).foldl
      (arFitStep predict cfg) ((tr, dv), nFits)
    ((tr, dv), res.2)
  else ((tr, dv), nFits)

/- ------------------------------------------------------------------ -/
/- Mixer constructors and the caller's dtype_dict (C10)                -/
/- ------------------------------------------------------------------ -/

/-- The caller-owned `dtype_dict` argument, an insertion-ordered dict. -/
abbrev DtypeDict := List (String × String)

/-- `d[k] = v` on a Python dict: overwrite in place or insert at the end. -/
def dictSet (d : DtypeDict) (k v : String) : DtypeDict :=
  if d.any (fun e => e.1 == k) then
    d.map (fun e => if e.1 == k then (e.1, v) else e)
  else d ++ [(k, v)]

/-- The `dtype.float` constant from `lightwood.api.dtype`. -/
def dtype.float : String := "float"

/-- State of the caller's `dtype_dict` after `SkTime.__init__`, which runs
`dtype_dict[target] = dtype.float` on the argument itself. -/
def SkTime.initDtypeDict (dd : DtypeDict) (target : String) : DtypeDict :=
  dictSet dd target dtype.float

/-- State of the caller's `dtype_dict` after `LightGBMArray.__init__`, which
also assigns `dtype_dict[target] = dtype.float` directly on the argument. -/
def LightGBMArray.initDtypeDict (dd : DtypeDict) (target : String) : DtypeDict :=
  dictSet dd target dtype.float

/-- Modelled from the spec: `LightGBM.__init__` (`lightwood/mixer/lightgbm.py`
is not among the sources here; only its subclasses are).  Per the uniform
mixer construction interface it stores the provided `dtype_dict` as
`self.dtype_dict` by reference, without copying, so writes through
`self.dtype_dict` reach the caller's dictionary. -/
def LightGBM.initDtypeDict (dd : DtypeDict) : DtypeDict := dd

/-- State of the caller's `dtype_dict` after `LightGBMArrayAR.__init__`: the
superclass constructor stores the reference, then
`self.dtype_dict[target] = dtype.float` writes through it. -/
def LightGBMArrayAR.initDtypeDict (dd : DtypeDict) (target : String) : DtypeDict :=
  dictSet (LightGBM.initDtypeDict dd) target dtype.float

/- ------------------------------------------------------------------ -/
/- Concrete fixtures used to instantiate the theorems below            -/
/- ------------------------------------------------------------------ -/

/-- A fitted per-group forecaster used in concrete instantiations. -/
def fcA : Forecaster :=
  { is_fitted := true, cutoff_d := none,
    predict := fun l => l.map (fun z => (z : Val) + 100) }

/-- A second fitted per-group forecaster, with `_cutoff`/`d` attributes. -/
def fcB : Forecaster :=
  { is_fitted := true, cutoff_d := some (5, some 1),
    predict := fun l => l.map (fun z => (z : Val) * 2) }

/-- A default (`'__default'`) forecaster used in concrete instantiations. -/
def fcDefault : Forecaster :=
  { is_fitted := true, cutoff_d := none,
    predict := fun l => l.map (fun z => (z : Val)) }

/-- Mixer state with one grouping column whose model table only covers
group `a`: group `b` is novel. -/
def stW1 : SkTimeState :=
  { models := [(["a"], fcA)], defaultModel := fcDefault,
    n_ts_predictions := 2, grouped := true }

/-- Mixer state whose model table covers both observed groups. -/
def stW2 : SkTimeState :=
  { models := [(["a"], fcA), (["b"], fcB)], defaultModel := fcDefault,
    n_ts_predictions := 2, grouped := true }

/-- A three-row target series. -/
def targetW : List Val := [10, 20, 30]

/-- One grouping column with groups `a` and `b` interleaved. -/
def labelsW : List (String × List String) := [("g", ["a", "b", "a"])]

/-- Three group-fit behaviours: a clean fit, a fit that needs the retry, and
a series too short to fit. -/
def grpsW : List (String × GroupFitBehavior) :=
  [("g1", { bigEnough := true, pipelineFitThrows := false, defaultFitThrows := false }),
   ("g2", { bigEnough := true, pipelineFitThrows := true, defaultFitThrows := false }),
   ("g3", { bigEnough := false, pipelineFitThrows := true, defaultFitThrows := false })]

/-- A time-series configuration for the displacement fixtures: numeric
target `T`, one ordering column, no grouping. -/
def cfgW : TsCfg :=
  { target := "T", order_by := ["ob"], group_by := [],
    deltas := [], defaultDeltas := [("ob", 1)] }

/-- A two-row frame with target, history-window and ordering columns. -/
def dfW : DFrame :=
  { cols := [("T", [.num 1, .num 2]),
             ("__mdb_ts_previous_T", [.arr [0, 1], .arr [1, 2]]),
             ("ob", [.arr [10, 11], .arr [11, 12]])] }

/-- A constant submodel used for the round-trip instantiation. -/
def predictW (df : DFrame) : List Val := List.replicate df.nrows 7

/-- A submodel that answers the original frame but raises on any displaced
frame (the second prediction step of a 2-step horizon). -/
def predictE (df : DFrame) : Except String (List Val) :=
  if df = dfW then .ok [5, 6] else .error "model failure"

/-- The fixture frame displaced once with the step-0 predictions. -/
def dfWdisp : DFrame := displace_ds cfgW dfW [5, 6] 1

/-- A training frame with the target column and its step-variant columns. -/
def trW : DFrame :=
  { cols := [("T", [.num 1, .num 2]),
             ("T_timestep_1", [.num 2, .num 3]),
             ("T_timestep_2", [.num 3, .num 4])] }

/-- A dev frame with the target column and its step-variant columns. -/
def dvW : DFrame :=
  { cols := [("T", [.num 4, .num 5]),
             ("T_timestep_1", [.num 5, .num 6]),
             ("T_timestep_2", [.num 6, .num 7])] }

/-- A per-pass constant submodel for the exhaustive-fit instantiation. -/
def predictK (_k : ℕ) (df : DFrame) : List Val := List.replicate df.nrows 3

/-- A dtype dict in which the target is not yet a float column. -/
def ddW : DtypeDict := [("y", "int"), ("x", "categorical")]

/- ------------------------------------------------------------------ -/
/- Theorems for claims C6 and C9                                       -/
/- ------------------------------------------------------------------ -/

/-- Flattening singleton rows recovers the original list. -/
theorem flatten_map_singleton (l : List Val) :
    (l.map (fun v => [v])).flatten = l := by
  induction l with
  | nil => rfl
  | cons a t ih => simp [ih]

/-- Normalization keeps every numeric entry, in order. -/
theorem normalize_entriesFlat (d : DataRep) :
    d.normalize.entriesFlat = d.entriesFlat := by
  cases d <;> simp [DataRep.normalize, DataRep.entriesFlat, flatten_map_singleton]

/-- Normalization keeps the row count. -/
theorem normalize_rowCount (d : DataRep) :
    d.normalize.rowCount = d.rowCount := by
  cases d <;> simp [DataRep.normalize, DataRep.rowCount]

/-- C6 counterexample: `get_group_matches` is not side-effect free.  On a
dict whose `data['data']` is a pandas Series, the call leaves the caller's
dict holding a 2-D array instead: the post-call state differs from the
pre-call state. -/
theorem get_group_matches_mutates_counterexample :
    (get_group_matches { data := .series [1, 2], group_info := [("g", ["a", "b"])] }
        Comb.default).1
      ≠ { data := .series [1, 2], group_info := [("g", ["a", "b"])] } := by
  decide

/-- C6 amended: `get_group_matches` is deterministic (it is a function of its
arguments) and its only side effect is normalizing `data['data']` to its 2-D
array form in place — the post-call state is exactly the input with the
payload normalized, so `group_info` is untouched and the payload keeps the
same entries and row count. -/
theorem get_group_matches_effects (d : GData) (c : Comb) :
    (get_group_matches d c).1 = { d with data := d.data.normalize }
      ∧ (get_group_matches d c).1.group_info = d.group_info
      ∧ (get_group_matches d c).1.data.entriesFlat = d.data.entriesFlat
      ∧ (get_group_matches d c).1.data.rowCount = d.data.rowCount := by
  have h1 : (get_group_matches d c).1 = { d with data := d.data.normalize } := by
    cases c with
    | default => rfl
    | tup vals =>
        simp only [get_group_matches]
        split <;> rfl
  refine ⟨h1, ?_, ?_, ?_⟩ <;> rw [h1]
  · exact (normalize_entriesFlat d.data)
  · exact (normalize_rowCount d.data)

/-- C9: the MASE scale divisor is guarded.  When the naive-forecast scale
error is zero the effective divisor is 1 (so `mase` at scale 0 agrees with
`mase` at scale 1), and the divisor used is nonzero for every input. -/
theorem mase_zero_scale_guard :
    (∀ trues preds fh, mase trues preds 0 fh = mase trues preds 1 fh)
      ∧ maseScale 0 = 1 ∧ ∀ s : Val, maseScale s ≠ 0 := by
  refine ⟨fun trues preds fh => by simp [mase, maseScale], by simp [maseScale], fun s => ?_⟩
  by_cases h : s = 0 <;> simp [maseScale, h]

/- ------------------------------------------------------------------ -/
/- Lemmas on sorting and on _call_groupmodel                           -/
/- ------------------------------------------------------------------ -/

/-- Membership through `insertNat`. -/
theorem mem_insertNat (x : ℕ) (l : List ℕ) (j : ℕ) :
    j ∈ insertNat x l ↔ j = x ∨ j ∈ l := by
  induction l with
  | nil => simp [insertNat]
  | cons y t ih =>
      by_cases h : x ≤ y
      · simp [insertNat, h]
      · simp [insertNat, h, ih]
        tauto

/-- Sorting keeps membership. -/
theorem mem_sortNat (l : List ℕ) (j : ℕ) : j ∈ sortNat l ↔ j ∈ l := by
  induction l with
  | nil => simp [sortNat]
  | cons y t ih => simp [sortNat, mem_insertNat, ih]

/-- Inserting an element below every list element prepends it. -/
theorem insertNat_of_le (x : ℕ) (l : List ℕ) (h : ∀ y ∈ l, x ≤ y) :
    insertNat x l = x :: l := by
  cases l with
  | nil => rfl
  | cons y t => simp [insertNat, h y (by simp)]

/-- Sorting an already-sorted list is the identity. -/
theorem sortNat_eq_self (l : List ℕ) (h : l.Pairwise (· ≤ ·)) : sortNat l = l := by
  induction l with
  | nil => rfl
  | cons y t ih =>
      rw [List.pairwise_cons] at h
      rw [sortNat, ih h.2, insertNat_of_le y t h.1]

/-- The index lists built by filtering `range` are ascending. -/
theorem groupIdxs_pairwise (ginfo : List (String × List String)) (g : List String)
    (n : ℕ) : (groupIdxs ginfo g n).Pairwise (· ≤ ·) :=
  (List.pairwise_le_range n).filter _

/-- The index lists built by filtering `range` have no duplicates. -/
theorem groupIdxs_nodup (ginfo : List (String × List String)) (g : List String)
    (n : ℕ) : (groupIdxs ginfo g n).Nodup :=
  (List.nodup_range n).filter _

/-- The inner `_call_groupmodel` loop does not change the table length. -/
theorem call_groupmodel_go_length (H : ℕ) (f : Forecaster) (offset : Int) :
    ∀ (l : List ℕ) (pos : ℕ) (ydf : List (Option (List Val))),
      (call_groupmodel_go H f offset pos l ydf).length = ydf.length := by
  intro l
  induction l with
  | nil => intro pos ydf; rfl
  | cons j rest ih =>
      intro pos ydf
      rw [call_groupmodel_go, ih, List.length_set]

/-- Rows outside the series' original index keep their previous value. -/
theorem call_groupmodel_go_notmem (H : ℕ) (f : Forecaster) (offset : Int) :
    ∀ (l : List ℕ) (pos : ℕ) (ydf : List (Option (List Val))) (j : ℕ), j ∉ l →
      (call_groupmodel_go H f offset pos l ydf)[j]? = ydf[j]? := by
  intro l
  induction l with
  | nil => intro pos ydf j _; rfl
  | cons a rest ih =>
      intro pos ydf j hj
      rw [call_groupmodel_go, ih _ _ j (fun h => hj (List.mem_cons_of_mem a h)),
        List.getElem?_set_ne (fun h => hj (by rw [← h]; exact List.mem_cons_self a rest))]

/-- Each row of the series receives the forecast for its position. -/
theorem call_groupmodel_go_mem (H : ℕ) (f : Forecaster) (offset : Int) :
    ∀ (l : List ℕ) (pos : ℕ) (ydf : List (Option (List Val))) (j : ℕ),
      l.Nodup → j ∈ l → j < ydf.length →
      (call_groupmodel_go H f offset pos l ydf)[j]? =
        some (some (predictAt H f (pos + l.indexOf j) offset)) := by
  intro l
  induction l with
  | nil => intro pos ydf j _ hj; cases hj
  | cons a rest ih =>
      intro pos ydf j hnd hj hlen
      rw [List.nodup_cons] at hnd
      by_cases hja : j = a
      · subst hja
        rw [call_groupmodel_go, call_groupmodel_go_notmem H f offset rest _ _ j hnd.1,
          List.getElem?_set_self hlen, List.indexOf_cons_self, Nat.add_zero]
      · have hjr : j ∈ rest := by
          cases List.mem_cons.mp hj with
          | inl h => exact absurd h hja
          | inr h => exact h
        have hstep := ih (pos + 1) (ydf.set a (some (predictAt H f pos offset))) j hnd.2
          hjr (by rw [List.length_set]; exact hlen)
        rw [call_groupmodel_go, hstep, List.indexOf_cons_ne rest (fun h => hja h.symm)]
        have harith : pos + 1 + List.indexOf j rest = pos + (List.indexOf j rest).succ := by
          omega
        rw [harith]

/- ------------------------------------------------------------------ -/
/- Lemmas on group matching                                            -/
/- ------------------------------------------------------------------ -/

/-- Looking up the head key of the `group_info` dict. -/
theorem colLabels_cons_self (k : String) (c : List String)
    (rest : List (String × List String)) : colLabels ((k, c) :: rest) k = c := by
  simp [colLabels, List.lookup_cons]

/-- Looking up a key different from the head key skips the head. -/
theorem colLabels_cons_ne (kv : String × List String)
    (rest : List (String × List String)) (k : String) (h : k ≠ kv.1) :
    colLabels (kv :: rest) k = colLabels rest k := by
  obtain ⟨k0, c0⟩ := kv
  have hb : (k == k0) = false := by
    simp only [beq_eq_false_iff_ne, ne_eq]
    exact h
  simp [colLabels, List.lookup_cons, hb]

/-- A grouping column whose key differs from the head of `group_info` is
matched identically against the tail dict. -/
theorem combMatches_shadow (kv : String × List String)
    (rest : List (String × List String)) (i : ℕ) :
    ∀ (pairs : List (String × String)), (∀ vk ∈ pairs, vk.2 ≠ kv.1) →
      combMatches (kv :: rest) pairs i = combMatches rest pairs i := by
  intro pairs
  induction pairs with
  | nil => intro _; rfl
  | cons vk ps ih =>
      intro h
      simp only [combMatches, List.all_cons] at *
      rw [ih (fun x hx => h x (List.mem_cons_of_mem vk hx))]
      have : pairMatches (kv :: rest) vk i = pairMatches rest vk i := by
        simp only [pairMatches, colLabels_cons_ne kv rest vk.2 (h vk (List.mem_cons_self vk ps))]
      rw [this]

/-- For a full combination tuple (one value per grouping column, in column
order), matching a row is exactly equality with the row's own tuple of
grouping values. -/
theorem combMatches_full_iff (n : ℕ) :
    ∀ (ginfo : List (String × List String)) (g : List String) (i : ℕ),
      (ginfo.map Prod.fst).Nodup → (∀ kv ∈ ginfo, kv.2.length = n) → i < n →
      g.length = ginfo.length →
      (combMatches ginfo (g.zip (ginfo.map Prod.fst)) i = true ↔ rowTuple ginfo i = g) := by
  intro ginfo
  induction ginfo with
  | nil =>
      intro g i _ _ _ hg
      have hge : g = [] := List.eq_nil_of_length_eq_zero hg
      subst hge
      simp [combMatches, rowTuple]
  | cons kv rest ih =>
      intro g i hnd hlen hi hg
      cases g with
      | nil => simp at hg
      | cons v gr =>
          rw [List.map_cons, List.nodup_cons] at hnd
          have hgr : gr.length = rest.length := by
            simpa using hg
          have hl : i < kv.2.length := by
            rw [hlen kv (List.mem_cons_self kv rest)]
            exact hi
          have hx : kv.2[i]? = some (kv.2.get ⟨i, hl⟩) := List.getElem?_eq_getElem hl
          have hshadow : combMatches (kv :: rest) (gr.zip (rest.map Prod.fst)) i
              = combMatches rest (gr.zip (rest.map Prod.fst)) i := by
            refine combMatches_shadow kv rest i _ (fun vk hvk => ?_)
            have := (List.of_mem_zip hvk).2
            intro hcon
            exact hnd.1 (hcon ▸ this)
          have hhead : pairMatches (kv :: rest) (v, kv.1) i = (kv.2[i]? == some v) := by
            have : colLabels (kv :: rest) kv.1 = kv.2 := by
              obtain ⟨k0, c0⟩ := kv
              exact colLabels_cons_self k0 c0 rest
            simp only [pairMatches, this]
          have hihr := ih gr i hnd.2 (fun kv' h => hlen kv' (List.mem_cons_of_mem kv h)) hi hgr
          simp only [rowTuple] at hihr
          rw [List.map_cons, List.zip_cons_cons, combMatches, List.all_cons]
          have htail : (gr.zip (rest.map Prod.fst)).all
                (fun vk => pairMatches (kv :: rest) vk i)
              = combMatches rest (gr.zip (rest.map Prod.fst)) i := hshadow
          rw [htail, hhead, hx]
          simp only [rowTuple, List.map_cons, hx, Option.getD_some, Bool.and_eq_true,
            beq_iff_eq, Option.some.injEq, List.cons.injEq]
          constructor
          · intro hand
            exact ⟨hand.1, hihr.mp hand.2⟩
          · intro heq
            exact ⟨heq.1, hihr.mpr heq.2⟩

/-- Membership in the sorted per-group index list, for full tuples. -/
theorem mem_groupIdxs_iff (ginfo : List (String × List String)) (g : List String)
    (n j : ℕ) (hnd : (ginfo.map Prod.fst).Nodup)
    (hlen : ∀ kv ∈ ginfo, kv.2.length = n) (hg : g.length = ginfo.length) :
    j ∈ groupIdxs ginfo g n ↔ j < n ∧ rowTuple ginfo j = g := by
  unfold groupIdxs
  rw [List.mem_filter, List.mem_range]
  constructor
  · rintro ⟨hj, hm⟩
    exact ⟨hj, (combMatches_full_iff n ginfo g j hnd hlen hj hg).mp hm⟩
  · rintro ⟨hj, he⟩
    exact ⟨hj, (combMatches_full_iff n ginfo g j hnd hlen hj hg).mpr he⟩

/-- Every member of the combination product has one value per column. -/
theorem listProduct_length :
    ∀ (cols : List (List String)) (g : List String), g ∈ listProduct cols →
      g.length = cols.length := by
  intro cols
  induction cols with
  | nil =>
      intro g hg
      simp only [listProduct, List.mem_singleton] at hg
      subst hg
      rfl
  | cons xs rest ih =>
      intro g hg
      simp only [listProduct, List.mem_flatMap, List.mem_map] at hg
      obtain ⟨x, _, t, ht, rfl⟩ := hg
      simp [ih t ht]

/-- Every row's own tuple of grouping values occurs in the product of the
per-column observed value sets. -/
theorem rowTuple_mem_listProduct :
    ∀ (ginfo : List (String × List String)) (n i : ℕ), i < n →
      (∀ kv ∈ ginfo, kv.2.length = n) →
      rowTuple ginfo i ∈ listProduct (ginfo.map (fun kv => kv.2.dedup)) := by
  intro ginfo
  induction ginfo with
  | nil => intro n i _ _; simp [rowTuple, listProduct]
  | cons kv rest ih =>
      intro n i hi hlen
      simp only [rowTuple, List.map_cons, listProduct, List.mem_flatMap]
      refine ⟨(kv.2[i]?).getD "", ?_, ?_⟩
      · have hl : i < kv.2.length := by
          rw [hlen kv (List.mem_cons_self kv rest)]
          exact hi
        rw [List.getElem?_eq_getElem hl]
        exact List.mem_dedup.mpr (List.getElem_mem hl)
      · exact List.mem_map.mpr
          ⟨rowTuple rest i,
           by
             have := ih n i hi (fun kv' h => hlen kv' (List.mem_cons_of_mem kv h))
             simpa [rowTuple] using this,
           rfl⟩

/- ------------------------------------------------------------------ -/
/- Lemmas on the group loop of SkTime.__call__                         -/
/- ------------------------------------------------------------------ -/

/-- On the prediction data dict (whose payload normalizes to the column
matrix of the target series), matching a full combination tuple yields the
normalized dict back together with the ascending matching indices and their
single-value rows. -/
theorem get_group_matches_tup_spec (target : List Val)
    (ginfo : List (String × List String)) (hne : ginfo ≠ [])
    (g : List String) (hg : g.length = ginfo.length) (d : GData)
    (hgi : d.group_info = ginfo)
    (hdata : d.data.normalize = .nd2 (target.map (fun v => [v]))) :
    get_group_matches d (.tup g) =
      ({ data := .nd2 (target.map (fun v => [v])), group_info := ginfo },
       (groupIdxs ginfo g target.length,
        (groupIdxs ginfo g target.length).map
          (fun i => (target.map (fun v => [v])).getD i []))) := by
  obtain ⟨ddata, dgi⟩ := d
  simp only at hgi hdata
  subst hgi
  cases hgi2 : dgi with
  | nil => exact absurd hgi2 hne
  | cons kv rest =>
      subst hgi2
      cases g with
      | nil => simp at hg
      | cons v gr =>
          simp only [get_group_matches, hdata, DataRep.rowsOf, List.map_cons,
            List.zip_cons_cons, List.isEmpty_cons, Bool.false_eq_true, if_false,
            List.length_map, groupIdxs]

/-- The value array built from a nonempty ascending index list of valid rows
has positive size. -/
theorem arraySize_pos (target : List Val) (idxs : List ℕ) (i : ℕ)
    (hi : i ∈ idxs) (hlt : i < target.length) :
    0 < arraySize (idxs.map (fun j => (target.map (fun v => [v])).getD j [])) := by
  refine Nat.pos_of_ne_zero (fun h0 => ?_)
  rw [arraySize] at h0
  have hall := List.sum_eq_zero_iff.mp h0
  have hmem : ((target.map (fun v => [v])).getD i []).length
      ∈ (idxs.map (fun j => (target.map (fun v => [v])).getD j [])).map List.length :=
    List.mem_map_of_mem _ (List.mem_map_of_mem _ hi)
  have hone : ((target.map (fun v => [v])).getD i []).length = 1 := by
    rw [List.getD_eq_getElem?_getD, List.getElem?_map,
      List.getElem?_eq_getElem hlt]
    rfl
  rw [hone] at hmem
  exact one_ne_zero (hall 1 hmem)

/-- One group-loop step keeps the data-dict invariants, the table length,
and previously logged warnings. -/
theorem skStep_state (st : SkTimeState) (offset : Int) (target : List Val)
    (ginfo : List (String × List String)) (hne : ginfo ≠ [])
    (g : List String) (hg : g.length = ginfo.length) (acc : SkAcc)
    (hgi : acc.d.group_info = ginfo)
    (hdata : acc.d.data.normalize = .nd2 (target.map (fun v => [v]))) :
    (skStep st offset acc g).d.group_info = ginfo ∧
    (skStep st offset acc g).d.data.normalize = .nd2 (target.map (fun v => [v])) ∧
    (skStep st offset acc g).ydf.length = acc.ydf.length ∧
    (∀ w ∈ acc.warns, w ∈ (skStep st offset acc g).warns) := by
  rw [skStep, get_group_matches_tup_spec target ginfo hne g hg acc.d hgi hdata]
  by_cases hpos : 0 < arraySize ((groupIdxs ginfo g target.length).map
      (fun i => (target.map (fun v => [v])).getD i []))
  · rw [if_pos hpos]
    refine ⟨rfl, rfl, call_groupmodel_go_length _ _ _ _ _ _, fun w hw => ?_⟩
    by_cases hdef : usesDefault st g = true
    · rw [if_pos hdef]
      exact List.mem_append_left _ hw
    · rw [if_neg hdef]
      exact hw
  · rw [if_neg hpos]
    exact ⟨rfl, rfl, rfl, fun w hw => hw⟩

/-- A step on the very group a row belongs to writes that row's final
prediction, removes it from the pending set, and logs the fallback warning
when the group has no fitted model. -/
theorem skStep_row_eq (st : SkTimeState) (offset : Int) (target : List Val)
    (ginfo : List (String × List String)) (hne : ginfo ≠ [])
    (hnd : (ginfo.map Prod.fst).Nodup)
    (hlen : ∀ kv ∈ ginfo, kv.2.length = target.length)
    (g : List String) (hg : g.length = ginfo.length) (acc : SkAcc)
    (hgi : acc.d.group_info = ginfo)
    (hdata : acc.d.data.normalize = .nd2 (target.map (fun v => [v])))
    (hy : acc.ydf.length = target.length)
    (i : ℕ) (hi : i < target.length) (hrow : rowTuple ginfo i = g) :
    (skStep st offset acc g).ydf[i]? =
      some (some (targetPred st ginfo target.length offset i)) ∧
    i ∉ (skStep st offset acc g).pending ∧
    (usesDefault st g = true → g ∈ (skStep st offset acc g).warns) := by
  have hmem : i ∈ groupIdxs ginfo g target.length :=
    (mem_groupIdxs_iff ginfo g target.length i hnd hlen hg).mpr ⟨hi, hrow⟩
  have hpos := arraySize_pos target (groupIdxs ginfo g target.length) i hmem hi
  have hsorted : sortNat (groupIdxs ginfo g target.length)
      = groupIdxs ginfo g target.length :=
    sortNat_eq_self _ (groupIdxs_pairwise ginfo g target.length)
  rw [skStep, get_group_matches_tup_spec target ginfo hne g hg acc.d hgi hdata]
  rw [if_pos hpos]
  refine ⟨?_, ?_, ?_⟩
  · dsimp only
    rw [hsorted]
    have hcg : call_groupmodel st.n_ts_predictions (resolveModel st g) offset
        (groupIdxs ginfo g target.length) acc.ydf
        = call_groupmodel_go st.n_ts_predictions (resolveModel st g) offset 0
          (groupIdxs ginfo g target.length) acc.ydf := rfl
    rw [hcg, call_groupmodel_go_mem st.n_ts_predictions
      (resolveModel st g) offset _ 0 acc.ydf i (groupIdxs_nodup ginfo g target.length)
      hmem (hy ▸ hi), Nat.zero_add, targetPred, hrow]
  · intro hcon
    rw [List.mem_filter, hsorted] at hcon
    have hnot : i ∉ groupIdxs ginfo g target.length := by simpa using hcon.2
    exact hnot hmem
  · intro hdef
    rw [if_pos hdef]
    exact List.mem_append_right _ (List.mem_singleton.mpr rfl)

/-- A step on a different group leaves a row's prediction cell and its
pending status untouched. -/
theorem skStep_row_ne (st : SkTimeState) (offset : Int) (target : List Val)
    (ginfo : List (String × List String)) (hne : ginfo ≠ [])
    (hnd : (ginfo.map Prod.fst).Nodup)
    (hlen : ∀ kv ∈ ginfo, kv.2.length = target.length)
    (g : List String) (hg : g.length = ginfo.length) (acc : SkAcc)
    (hgi : acc.d.group_info = ginfo)
    (hdata : acc.d.data.normalize = .nd2 (target.map (fun v => [v])))
    (i : ℕ) (hrow : rowTuple ginfo i ≠ g) :
    (skStep st offset acc g).ydf[i]? = acc.ydf[i]? ∧
    ((i ∈ (skStep st offset acc g).pending) ↔ i ∈ acc.pending) := by
  have hnmem : i ∉ groupIdxs ginfo g target.length := fun hcon =>
    hrow ((mem_groupIdxs_iff ginfo g target.length i hnd hlen hg).mp hcon).2
  rw [skStep, get_group_matches_tup_spec target ginfo hne g hg acc.d hgi hdata]
  by_cases hpos : 0 < arraySize ((groupIdxs ginfo g target.length).map
      (fun i => (target.map (fun v => [v])).getD i []))
  · have hsorted : sortNat (groupIdxs ginfo g target.length)
        = groupIdxs ginfo g target.length :=
      sortNat_eq_self _ (groupIdxs_pairwise ginfo g target.length)
    rw [if_pos hpos]
    constructor
    · rw [hsorted]
      exact call_groupmodel_go_notmem _ _ _ _ _ _ _ hnmem
    · rw [List.mem_filter, hsorted]
      simp only [and_iff_left_iff_imp]
      intro _
      simpa using hnmem
  · rw [if_neg hpos]
    exact ⟨rfl, Iff.rfl⟩

/-- Invariant of the full `for group in all_group_combinations` loop: rows
whose combination has been processed hold their final prediction, are no
longer pending, and have triggered the fallback warning when applicable;
rows whose combination is yet unseen are untouched. -/
theorem skFold_invariant (st : SkTimeState) (offset : Int) (target : List Val)
    (ginfo : List (String × List String)) (hne : ginfo ≠ [])
    (hnd : (ginfo.map Prod.fst).Nodup)
    (hlen : ∀ kv ∈ ginfo, kv.2.length = target.length) :
    ∀ (combos : List (List String)), (∀ g ∈ combos, g.length = ginfo.length) →
    ∀ (acc : SkAcc), acc.d.group_info = ginfo →
      acc.d.data.normalize = .nd2 (target.map (fun v => [v])) →
      acc.ydf.length = target.length →
      (combos.foldl (skStep st offset) acc).ydf.length = target.length ∧
      (∀ w ∈ acc.warns, w ∈ (combos.foldl (skStep st offset) acc).warns) ∧
      ∀ i, i < target.length →
        (rowTuple ginfo i ∈ combos →
          (combos.foldl (skStep st offset) acc).ydf[i]? =
            some (some (targetPred st ginfo target.length offset i)) ∧
          i ∉ (combos.foldl (skStep st offset) acc).pending ∧
          (usesDefault st (rowTuple ginfo i) = true →
            rowTuple ginfo i ∈ (combos.foldl (skStep st offset) acc).warns)) ∧
        (rowTuple ginfo i ∉ combos →
          (combos.foldl (skStep st offset) acc).ydf[i]? = acc.ydf[i]? ∧
          ((i ∈ (combos.foldl (skStep st offset) acc).pending) ↔ i ∈ acc.pending)) := by
  intro combos
  induction combos with
  | nil =>
      intro _ acc _ _ hy
      refine ⟨hy, fun w hw => hw, fun i _ => ⟨fun hmem => absurd hmem (List.not_mem_nil _), fun _ => ⟨rfl, Iff.rfl⟩⟩⟩
  | cons g combos ih =>
      intro hcl acc hgi hdata hy
      have hgl : g.length = ginfo.length := hcl g (List.mem_cons_self g combos)
      have hstate := skStep_state st offset target ginfo hne g hgl acc hgi hdata
      have hrec := ih (fun g' h => hcl g' (List.mem_cons_of_mem g h))
        (skStep st offset acc g) hstate.1 hstate.2.1 (hstate.2.2.1.trans hy)
      simp only [List.foldl_cons]
      refine ⟨hrec.1, fun w hw => hrec.2.1 w (hstate.2.2.2 w hw), fun i hi => ?_⟩
      constructor
      · intro hmem
        by_cases hrg : rowTuple ginfo i = g
        · have hstep := skStep_row_eq st offset target ginfo hne hnd hlen g hgl acc
            hgi hdata hy i hi hrg
          by_cases hin : rowTuple ginfo i ∈ combos
          · exact (hrec.2.2 i hi).1 hin
          · have hpres := (hrec.2.2 i hi).2 hin
            refine ⟨hpres.1.trans hstep.1, fun hcon => hstep.2.1 (hpres.2.mp hcon), ?_⟩
            intro hdef
            exact hrec.2.1 _ (hrg ▸ hstep.2.2 (hrg ▸ hdef))
        · have hin : rowTuple ginfo i ∈ combos := by
            cases List.mem_cons.mp hmem with
            | inl h => exact absurd h hrg
            | inr h => exact h
          exact (hrec.2.2 i hi).1 hin
      · intro hnin
        have hng : rowTuple ginfo i ≠ g := fun h => hnin (h ▸ List.mem_cons_self g combos)
        have hnc : rowTuple ginfo i ∉ combos := fun h => hnin (List.mem_cons_of_mem g h)
        have hstep := skStep_row_ne st offset target ginfo hne hnd hlen g hgl acc
          hgi hdata i hng
        have hpres := (hrec.2.2 i hi).2 hnc
        exact ⟨hpres.1.trans hstep.1, hpres.2.trans hstep.2⟩

/-- Unfolding of `SkTime.__call__` for grouped tasks. -/
theorem skCall_grouped_unfold (st : SkTimeState) (target : List Val)
    (labels : List (String × List String)) (offset : Int) (hg : st.grouped = true) :
    skCall st target labels offset =
      (fun acc : SkAcc =>
        if acc.pending.isEmpty then ({ preds := acc.ydf, warns := acc.warns } : SkOut)
        else { preds := call_groupmodel st.n_ts_predictions st.defaultModel offset
                 (sortNat acc.pending) acc.ydf,
               warns := acc.warns })
      ((listProduct (labels.map (fun kv => kv.2.dedup))).foldl (skStep st offset)
        { d := { data := DataRep.series target, group_info := labels },
          ydf := List.replicate target.length none,
          pending := List.range target.length, warns := [] }) := by
  rw [skCall, hg]
  rfl

/-- Row-level specification of `SkTime.__call__` on grouped data: the output
table has one entry per input row, row `i`'s entry is the forecast of the
model resolved for row `i`'s group at the row's position within its group,
and every row whose group resolution fell back logged the novel-group
warning. -/
theorem skCall_spec (st : SkTimeState) (target : List Val)
    (labels : List (String × List String)) (offset : Int)
    (hg : st.grouped = true) (hne : labels ≠ [])
    (hnd : (labels.map Prod.fst).Nodup)
    (hlen : ∀ kv ∈ labels, kv.2.length = target.length) :
    (skCall st target labels offset).preds.length = target.length ∧
    ∀ i, i < target.length →
      (skCall st target labels offset).preds[i]? =
        some (some (targetPred st labels target.length offset i)) ∧
      (usesDefault st (rowTuple labels i) = true →
        rowTuple labels i ∈ (skCall st target labels offset).warns) := by
  have hcl : ∀ g ∈ listProduct (labels.map (fun kv => kv.2.dedup)),
      g.length = labels.length := by
    intro g hmem
    rw [listProduct_length (labels.map (fun kv => kv.2.dedup)) g hmem, List.length_map]
  have hinv := skFold_invariant st offset target labels hne hnd hlen
    (listProduct (labels.map (fun kv => kv.2.dedup))) hcl
    { d := { data := DataRep.series target, group_info := labels },
      ydf := List.replicate target.length none,
      pending := List.range target.length, warns := [] }
    rfl rfl (by rw [List.length_replicate])
  rw [skCall_grouped_unfold st target labels offset hg]
  dsimp only
  by_cases hemp : ((listProduct (labels.map (fun kv => kv.2.dedup))).foldl (skStep st offset)
      { d := { data := DataRep.series target, group_info := labels },
        ydf := List.replicate target.length none,
        pending := List.range target.length, warns := [] }).pending.isEmpty = true
  · rw [if_pos hemp]
    refine ⟨hinv.1, fun i hi => ?_⟩
    have hrow := (hinv.2.2 i hi).1 (rowTuple_mem_listProduct labels target.length i hi hlen)
    exact ⟨hrow.1, hrow.2.2⟩
  · rw [if_neg hemp]
    constructor
    · rw [call_groupmodel]
      rw [call_groupmodel_go_length, hinv.1]
    · intro i hi
      have hrow := (hinv.2.2 i hi).1 (rowTuple_mem_listProduct labels target.length i hi hlen)
      constructor
      · have hnp : i ∉ sortNat (((listProduct (labels.map (fun kv => kv.2.dedup))).foldl
            (skStep st offset)
            { d := { data := DataRep.series target, group_info := labels },
              ydf := List.replicate target.length none,
              pending := List.range target.length, warns := [] }).pending) := by
          intro hcon
          exact hrow.2.1 ((mem_sortNat _ i).mp hcon)
        rw [call_groupmodel]
        rw [call_groupmodel_go_notmem _ _ _ _ _ _ _ hnp]
        exact hrow.1
      · exact hrow.2.2

/- ------------------------------------------------------------------ -/
/- Claims C1 and C2                                                    -/
/- ------------------------------------------------------------------ -/

/-- C1: for every group combination `G` with no fitted model in the
statistical mixer's model table (no entry, or an entry that is not fitted),
`SkTime.__call__` resolves `G`'s rows to the default model: the prediction
emitted for each such row equals the prediction the default model would emit
for the same series position and offset, and the novel-group warning is
logged for `G`.  The embedded `skCall` is a total function, so this path
raises no exception. -/
theorem sktime_unfitted_group_uses_default (st : SkTimeState) (target : List Val)
    (labels : List (String × List String)) (offset : Int) (G : List String) (i : ℕ)
    (hg : st.grouped = true) (hne : labels ≠ [])
    (hnd : (labels.map Prod.fst).Nodup)
    (hlen : ∀ kv ∈ labels, kv.2.length = target.length)
    (hi : i < target.length) (hGi : rowTuple labels i = G)
    (hunfit : ∀ f, lookupModel st.models G = some f → f.is_fitted = false) :
    (skCall st target labels offset).preds[i]? =
      some (some (predictAt st.n_ts_predictions st.defaultModel
        ((groupIdxs labels G target.length).indexOf i) offset)) ∧
    G ∈ (skCall st target labels offset).warns := by
  have hres : resolveModel st G = st.defaultModel := by
    cases hlk : lookupModel st.models G with
    | none => simp [resolveModel, hlk]
    | some f => simp [resolveModel, hlk, hunfit f hlk]
  have hdef : usesDefault st G = true := by
    cases hlk : lookupModel st.models G with
    | none => simp [usesDefault, hlk]
    | some f => simp [usesDefault, hlk, hunfit f hlk]
  have hspec := skCall_spec st target labels offset hg hne hnd hlen
  have hrow := hspec.2 i hi
  rw [hGi] at hrow
  constructor
  · rw [hrow.1]
    simp only [targetPred, hGi, hres]
  · exact hrow.2 hdef

/-- C1 witness: on a concrete three-row batch with interleaved groups `a`
and `b` where only `a` has a fitted model, row 1 (group `b`) receives the
default model's forecast and the novel-group warning is logged for `b`. -/
theorem sktime_unfitted_group_uses_default_witness :
    (skCall stW1 targetW labelsW 0).preds[1]? =
      some (some (predictAt stW1.n_ts_predictions stW1.defaultModel
        ((groupIdxs labelsW ["b"] targetW.length).indexOf 1) 0)) ∧
    ["b"] ∈ (skCall stW1 targetW labelsW 0).warns :=
  sktime_unfitted_group_uses_default stW1 targetW labelsW 0 ["b"] 1 rfl
    (by decide) (by decide) (by decide) (by decide) (by decide)
    (fun f hf =>
      Option.noConfusion (show (none : Option Forecaster) = some f from hf))

/-- C2: on a batch whose every row belongs to a group with a fitted model,
`SkTime.__call__` answers each row with that row's own group model (not the
default), and the returned table preserves the original row order: it has
one entry per input row and the entry at input position `i` is row `i`'s
forecast, however the groups are interleaved. -/
theorem sktime_fitted_groups_row_order (st : SkTimeState) (target : List Val)
    (labels : List (String × List String)) (offset : Int)
    (hg : st.grouped = true) (hne : labels ≠ [])
    (hnd : (labels.map Prod.fst).Nodup)
    (hlen : ∀ kv ∈ labels, kv.2.length = target.length) :
    (skCall st target labels offset).preds.length = target.length ∧
    ∀ i, i < target.length → ∀ f, lookupModel st.models (rowTuple labels i) = some f →
      f.is_fitted = true →
      (skCall st target labels offset).preds[i]? =
        some (some (predictAt st.n_ts_predictions f
          ((groupIdxs labels (rowTuple labels i) target.length).indexOf i) offset)) := by
  have hspec := skCall_spec st target labels offset hg hne hnd hlen
  refine ⟨hspec.1, fun i hi f hlk hfit => ?_⟩
  have hres : resolveModel st (rowTuple labels i) = f := by
    simp [resolveModel, hlk, hfit]
  rw [(hspec.2 i hi).1]
  simp only [targetPred, hres]

/-- C2 witness: with both groups fitted, the output table of the concrete
three-row interleaved batch has three entries, and row 1 (group `b`) holds
group `b`'s own model forecast. -/
theorem sktime_fitted_groups_row_order_witness :
    (skCall stW2 targetW labelsW 0).preds.length = targetW.length ∧
    (skCall stW2 targetW labelsW 0).preds[1]? =
      some (some (predictAt stW2.n_ts_predictions fcB
        ((groupIdxs labelsW (rowTuple labelsW 1) targetW.length).indexOf 1) 0)) :=
  have h := sktime_fitted_groups_row_order stW2 targetW labelsW 0 rfl
    (by decide) (by decide) (by decide)
  ⟨h.1, h.2 1 (by decide) fcB rfl rfl⟩

/- ------------------------------------------------------------------ -/
/- Claim C3                                                            -/
/- ------------------------------------------------------------------ -/

/-- A group whose retry (if reached) does not throw is fitted with the
expected result: one attempt when the configured pipeline succeeds, two
attempts (exactly one retry, with the parameter-free class) when it throws,
none when the series is too short. -/
theorem fitOneGroup_ok (b : GroupFitBehavior) (h : b.defaultFitThrows = false) :
    fitOneGroup b = .ok (expectedFit b) := by
  obtain ⟨be, pt, dt⟩ := b
  simp only at h
  subst h
  cases be <;> cases pt <;> rfl

/-- The group loop succeeds end to end whenever no group's retry throws. -/
theorem sktimeFitGroups_ok :
    ∀ (groups : List (String × GroupFitBehavior)),
      (∀ gb ∈ groups, gb.2.defaultFitThrows = false) →
      sktimeFitGroups groups = .ok (groups.map (fun gb => (gb.1, expectedFit gb.2))) := by
  intro groups
  induction groups with
  | nil => intro _; rfl
  | cons gb rest ih =>
      intro h
      rw [sktimeFitGroups, fitOneGroup_ok gb.2 (h gb (List.mem_cons_self gb rest)),
        ih (fun x hx => h x (List.mem_cons_of_mem gb hx))]
      rfl

/-- C3 counterexample: the claim that no exception escapes `fit` because of
a single group's fitting failure is false.  The retry fit at
`sktime.py:186` is not guarded: for a group whose configured pipeline fit
and whose parameter-free retry fit both raise, the exception escapes the
group loop (and the remaining groups are never processed), even when every
other group would fit cleanly. -/
theorem sktime_fit_double_failure_counterexample :
    sktimeFitGroups
      [("g1", { bigEnough := true, pipelineFitThrows := true, defaultFitThrows := true }),
       ("g2", { bigEnough := true, pipelineFitThrows := false, defaultFitThrows := false })]
      = .error "g1" := by
  rfl

/-- C3 amended: on any fitting exception for a group's configured forecaster
pipeline, exactly one retry is made with a parameter-free instantiation of
the same base forecaster class (two fit attempts in total, versus one when
the pipeline fits cleanly and none for skipped groups); when no group's
retry itself raises, no exception escapes `fit` and every group receives
its expected outcome.  If the retry raises, the exception propagates (see
the counterexample). -/
theorem sktime_fit_retry (groups : List (String × GroupFitBehavior))
    (h : ∀ gb ∈ groups, gb.2.defaultFitThrows = false) :
    sktimeFitGroups groups = .ok (groups.map (fun gb => (gb.1, expectedFit gb.2))) ∧
    ∀ b : GroupFitBehavior,
      fitAttempts (expectedFit b) =
        if b.bigEnough && b.pipelineFitThrows then 2
        else if b.bigEnough then 1 else 0 := by
  refine ⟨sktimeFitGroups_ok groups h, fun b => ?_⟩
  obtain ⟨be, pt, dt⟩ := b
  cases be <;> cases pt <;> rfl

/-- C3 witness: the three-group fixture (clean fit, retry fit, skipped
series) fits without any escaping exception, and the retried group made
exactly two attempts. -/
theorem sktime_fit_retry_witness :
    sktimeFitGroups grpsW = .ok (grpsW.map (fun gb => (gb.1, expectedFit gb.2))) ∧
    fitAttempts (expectedFit
      { bigEnough := true, pipelineFitThrows := true, defaultFitThrows := false }) = 2 :=
  have h := sktime_fit_retry grpsW (by decide)
  ⟨h.1, (h.2 { bigEnough := true, pipelineFitThrows := true, defaultFitThrows := false }).trans
    (by decide)⟩

/- ------------------------------------------------------------------ -/
/- Claims C4 and C5                                                    -/
/- ------------------------------------------------------------------ -/

/-- Each timestep of the prediction loop contributes exactly one column to
`ydf`. -/
theorem arStep_fold_cols_length (predict : DFrame → List Val) (cfg : TsCfg) (H : ℕ) :
    ∀ (l : List ℕ) (acc : List DFrame × List (List Val)),
      ((l.foldl (arStep predict cfg H) acc).2).length = acc.2.length + l.length := by
  intro l
  induction l with
  | nil => intro acc; rfl
  | cons t ts ih =>
      intro acc
      rw [List.foldl_cons, ih]
      simp [arStep]
      omega

/-- C4: for every input and every horizon `H ≥ 1`, after
`LightGBMArrayAR.__call__` completes all `H` prediction-and-displacement
steps (one `ydf` column per step), the caller's data frames equal the
pre-call state exactly — same column set, same row count, same values —
because the deep copies saved before the loop are assigned back after it. -/
theorem ar_call_restores_frames (predict : DFrame → List Val) (cfg : TsCfg)
    (H : ℕ) (dss : List DFrame) (h : 1 ≤ H) :
    (LightGBMArrayAR.call predict cfg H dss).frames = dss ∧
    (LightGBMArrayAR.call predict cfg H dss).ydf.length = H := by
  refine ⟨rfl, ?_⟩
  have hlen := arStep_fold_cols_length predict cfg H (List.range H) (dss, [])
  rw [LightGBMArrayAR.call]
  dsimp only
  rw [hlen]
  simp

/-- C4 witness: the concrete two-row dataset walked for `H = 2` steps comes
back with its exact original frame and two prediction columns. -/
theorem ar_call_restores_frames_witness :
    (LightGBMArrayAR.call predictW cfgW 2 [dfW]).frames = [dfW] ∧
    (LightGBMArrayAR.call predictW cfgW 2 [dfW]).ydf.length = 2 :=
  ar_call_restores_frames predictW cfgW 2 [dfW] (by decide)

/-- C5: the save/restore discipline of the autoregressive mixer does not
hold on the error path.  `LightGBMArrayAR.__call__` (and the exhaustive
branch of `fit`) has no `try`/`finally` around the displacement loop: when
the submodel raises at the second step of a 2-step horizon, the exception
escapes with the caller's dataset still holding the displaced frame, which
differs from the original — the original state is not restored. -/
theorem ar_call_error_path_leaves_displaced :
    LightGBMArrayAR.callE predictE cfgW 2 [dfW]
      = .error ("model failure", [dfWdisp]) ∧
    dfWdisp ≠ dfW := by
  constructor
  · rfl
  · decide

/- ------------------------------------------------------------------ -/
/- Lemmas on column/dict assignment                                    -/
/- ------------------------------------------------------------------ -/

/-- Replacing the value of an existing key makes its lookup return the new
value. -/
theorem lookup_replace_self {β : Type} :
    ∀ (l : List (String × β)) (k : String) (v : β),
      l.any (fun e => e.1 == k) = true →
      (l.map (fun e => if e.1 == k then (e.1, v) else e)).lookup k = some v := by
  intro l k v
  induction l with
  | nil => intro h; cases h
  | cons e rest ih =>
      obtain ⟨k0, v0⟩ := e
      intro h
      by_cases he : k0 = k
      · subst he
        simp [List.lookup_cons]
      · have hb : (k0 == k) = false := beq_eq_false_iff_ne.mpr he
        have hk : (k == k0) = false := beq_eq_false_iff_ne.mpr (fun hc => he hc.symm)
        rw [List.any_cons] at h
        simp only [hb, Bool.false_or] at h
        rw [List.map_cons]
        simp only [hb, Bool.false_eq_true, if_false, List.lookup_cons, hk]
        exact ih h

/-- A key absent from a prefix is looked up in the suffix. -/
theorem lookup_append_right {β : Type} :
    ∀ (l1 l2 : List (String × β)) (k : String),
      (∀ e ∈ l1, e.1 ≠ k) → (l1 ++ l2).lookup k = l2.lookup k := by
  intro l1 l2 k
  induction l1 with
  | nil => intro _; rfl
  | cons e rest ih =>
      obtain ⟨k0, v0⟩ := e
      intro h
      have hk : (k == k0) = false := beq_eq_false_iff_ne.mpr
        (fun hc => h (k0, v0) (List.mem_cons_self (k0, v0) rest) hc.symm)
      rw [List.cons_append]
      simp only [List.lookup_cons, hk]
      exact ih (fun x hx => h x (List.mem_cons_of_mem (k0, v0) hx))

/-- Replacing the value stored under one key leaves every other key's lookup
unchanged. -/
theorem lookup_replace_ne {β : Type} :
    ∀ (l : List (String × β)) (k k' : String) (v : β), k' ≠ k →
      (l.map (fun e => if e.1 == k then (e.1, v) else e)).lookup k' = l.lookup k' := by
  intro l k k' v hne
  induction l with
  | nil => rfl
  | cons e rest ih =>
      obtain ⟨k0, v0⟩ := e
      rw [List.map_cons]
      by_cases he : k0 = k
      · subst he
        have hk : (k' == k0) = false := beq_eq_false_iff_ne.mpr hne
        simp only [beq_self_eq_true, if_true, List.lookup_cons, hk]
        exact ih
      · have hb : (k0 == k) = false := beq_eq_false_iff_ne.mpr he
        simp only [hb, Bool.false_eq_true, if_false, List.lookup_cons]
        by_cases hk' : k' = k0
        · simp [hk']
        · have hk : (k' == k0) = false := beq_eq_false_iff_ne.mpr hk'
          simp only [hk]
          exact ih

/-- Assigning a column and reading it back yields the assigned cells. -/
theorem getCol_setCol_self (df : DFrame) (name : String) (vals : List Cell) :
    (df.setCol name vals).getCol name = vals := by
  rw [DFrame.setCol]
  by_cases h : df.hasCol name = true
  · rw [if_pos h, DFrame.getCol]
    rw [lookup_replace_self df.cols name vals h]
    rfl
  · rw [if_neg h, DFrame.getCol]
    have habs : ∀ e ∈ df.cols, e.1 ≠ name := by
      intro e he hc
      exact h (List.any_eq_true.mpr ⟨e, he, by simp [hc]⟩)
    rw [lookup_append_right df.cols [(name, vals)] name habs]
    simp [List.lookup_cons]

/-- Assigning one column leaves every other column's cells unchanged. -/
theorem getCol_setCol_ne (df : DFrame) (name name' : String) (vals : List Cell)
    (h : name' ≠ name) : (df.setCol name vals).getCol name' = df.getCol name' := by
  rw [DFrame.setCol]
  by_cases hc : df.hasCol name = true
  · rw [if_pos hc, DFrame.getCol, DFrame.getCol]
    rw [lookup_replace_ne df.cols name name' vals h]
  · rw [if_neg hc, DFrame.getCol, DFrame.getCol]
    rw [List.lookup_append]
    have hk : (name' == name) = false := by
      simp only [beq_eq_false_iff_ne, ne_eq]
      exact h
    cases hl : df.cols.lookup name' with
    | some c => rfl
    | none => simp [List.lookup_cons, hk]

/- ------------------------------------------------------------------ -/
/- Claim C7                                                            -/
/- ------------------------------------------------------------------ -/

/-- Walking a list of positive steps from frames that agree with the
original frames off the target column: each step's recorded training frames
hold the original step-variant values in the target column, and the final
frames hold the last step's variant. -/
theorem lgbmArrayFitGo_spec (target : String) (orig origDv : DFrame) :
    ∀ (ts : List ℕ) (tr dv : DFrame),
      (∀ c, c ≠ target → tr.getCol c = orig.getCol c) →
      (∀ c, c ≠ target → dv.getCol c = origDv.getCol c) →
      (∀ t ∈ ts, 0 < t) → (∀ t ∈ ts, tsColName target t ≠ target) →
      (lgbmArrayFitGo target ts tr dv).2.length = ts.length ∧
      (∀ (k t : ℕ), ts[k]? = some t →
        ((lgbmArrayFitGo target ts tr dv).2[k]?).map (fun r => r.1.getCol target)
          = some (orig.getCol (tsColName target t)) ∧
        ((lgbmArrayFitGo target ts tr dv).2[k]?).map (fun r => r.2.getCol target)
          = some (origDv.getCol (tsColName target t))) ∧
      (∀ (tl : ℕ), ts.getLast? = some tl →
        (lgbmArrayFitGo target ts tr dv).1.1.getCol target
          = orig.getCol (tsColName target tl) ∧
        (lgbmArrayFitGo target ts tr dv).1.2.getCol target
          = origDv.getCol (tsColName target tl)) := by
  intro ts
  induction ts with
  | nil =>
      intro tr dv _ _ _ _
      refine ⟨rfl, fun k t hk => ?_, fun tl htl => ?_⟩
      · rw [List.getElem?_nil] at hk
        cases hk
      · rw [List.getLast?_nil] at htl
        cases htl
  | cons t0 ts ih =>
      intro tr dv htr hdv hpos hne
      have ht0 : 0 < t0 := hpos t0 (List.mem_cons_self t0 ts)
      have hne0 : tsColName target t0 ≠ target := hne t0 (List.mem_cons_self t0 ts)
      rw [lgbmArrayFitGo, if_pos ht0, if_pos ht0]
      set tr' := tr.setCol target (tr.getCol (tsColName target t0)) with htr'
      set dv' := dv.setCol target (dv.getCol (tsColName target t0)) with hdv'
      have htrT : tr'.getCol target = orig.getCol (tsColName target t0) := by
        rw [htr', getCol_setCol_self, htr _ hne0]
      have hdvT : dv'.getCol target = origDv.getCol (tsColName target t0) := by
        rw [hdv', getCol_setCol_self, hdv _ hne0]
      have htr2 : ∀ c, c ≠ target → tr'.getCol c = orig.getCol c := by
        intro c hc
        rw [htr', getCol_setCol_ne tr target c _ hc, htr c hc]
      have hdv2 : ∀ c, c ≠ target → dv'.getCol c = origDv.getCol c := by
        intro c hc
        rw [hdv', getCol_setCol_ne dv target c _ hc, hdv c hc]
      have hrec := ih tr' dv' htr2 hdv2
        (fun t ht => hpos t (List.mem_cons_of_mem t0 ht))
        (fun t ht => hne t (List.mem_cons_of_mem t0 ht))
      refine ⟨?_, ?_, ?_⟩
      · simp [hrec.1]
      · intro k t hk
        cases k with
        | zero =>
            rw [List.getElem?_cons_zero] at hk
            cases hk
            exact ⟨by simp [htrT], by simp [hdvT]⟩
        | succ k =>
            rw [List.getElem?_cons_succ] at hk
            dsimp only
            rw [List.getElem?_cons_succ]
            exact hrec.2.1 k t hk
      · intro tl htl
        cases ts with
        | nil =>
            rw [List.getLast?_singleton] at htl
            cases htl
            exact ⟨htrT, hdvT⟩
        | cons t1 ts1 =>
            rw [List.getLast?_cons_cons] at htl
            exact hrec.2.2 tl htl

/-- C7 counterexample: in `LightGBMArray.fit` the target-column substitution
is not temporary.  With horizon 2, after `fit` returns, the train frame's
target column holds the step-1 variant values, not its original values —
there is no restoration step. -/
theorem lgbm_array_fit_no_restore_counterexample :
    (LightGBMArray.fit 2 "T" trW dvW).1.1.getCol "T" ≠ trW.getCol "T" := by
  decide

/-- C7 amended: in `LightGBMArray.fit` with horizon `H ≥ 2`, step 0's
regressor is trained on the unmodified frames, each step `t ≥ 1` regressor
is trained with the target column substituted by the original step-`t`
variant column, and after `fit` completes the frames' target column holds
the step-`(H-1)` variant values — the substitution is not undone. -/
theorem lgbm_array_fit_substitution (H : ℕ) (target : String) (tr dv : DFrame)
    (h2 : 2 ≤ H) (hne : ∀ t, t < H → 1 ≤ t → tsColName target t ≠ target) :
    (LightGBMArray.fit H target tr dv).2.length = H ∧
    (LightGBMArray.fit H target tr dv).2[0]? = some (tr, dv) ∧
    (∀ (t : ℕ), 1 ≤ t → t < H →
      ((LightGBMArray.fit H target tr dv).2[t]?).map (fun r => r.1.getCol target)
        = some (tr.getCol (tsColName target t)) ∧
      ((LightGBMArray.fit H target tr dv).2[t]?).map (fun r => r.2.getCol target)
        = some (dv.getCol (tsColName target t))) ∧
    (LightGBMArray.fit H target tr dv).1.1.getCol target
      = tr.getCol (tsColName target (H - 1)) ∧
    (LightGBMArray.fit H target tr dv).1.2.getCol target
      = dv.getCol (tsColName target (H - 1)) := by
  obtain ⟨m, rfl⟩ : ∃ m, H = m + 1 := ⟨H - 1, by omega⟩
  have hm : 1 ≤ m := by omega
  rw [LightGBMArray.fit, List.range_succ_eq_map, lgbmArrayFitGo,
    if_neg (by omega : ¬ (0:ℕ) < 0), if_neg (by omega : ¬ (0:ℕ) < 0)]
  have hspec := lgbmArrayFitGo_spec target tr dv ((List.range m).map Nat.succ) tr dv
    (fun _ _ => rfl) (fun _ _ => rfl)
    (by
      intro t ht
      rw [List.mem_map] at ht
      obtain ⟨a, _, rfl⟩ := ht
      omega)
    (by
      intro t ht
      rw [List.mem_map] at ht
      obtain ⟨a, ha, rfl⟩ := ht
      rw [List.mem_range] at ha
      exact hne (a + 1) (by omega) (by omega))
  refine ⟨?_, ?_, ?_, ?_⟩
  · simp [hspec.1]
  · dsimp only
    rw [List.getElem?_cons_zero]
  · intro t h1 hH
    cases t with
    | zero => omega
    | succ k =>
        dsimp only
        rw [List.getElem?_cons_succ]
        refine hspec.2.1 k (k + 1) ?_
        rw [List.getElem?_map,
          List.getElem?_eq_getElem (by rw [List.length_range]; omega : k < (List.range m).length)]
        rw [List.getElem_range]
        rfl
  · have hlast : ((List.range m).map Nat.succ).getLast? = some m := by
      obtain ⟨m2, rfl⟩ : ∃ m2, m = m2 + 1 := ⟨m - 1, by omega⟩
      rw [List.getLast?_map, List.range_succ, List.getLast?_concat]
      rfl
    have hfin := hspec.2.2 m hlast
    simpa using hfin

/-- C7 witness: on concrete two-row frames with step-variant columns and
horizon 3, step 0 trains on the unmodified frames, steps 1 and 2 train on
the substituted columns, and the final target column holds the step-2
variant. -/
theorem lgbm_array_fit_substitution_witness :
    (LightGBMArray.fit 3 "T" trW dvW).2.length = 3 ∧
    (LightGBMArray.fit 3 "T" trW dvW).2[0]? = some (trW, dvW) ∧
    (∀ (t : ℕ), 1 ≤ t → t < 3 →
      ((LightGBMArray.fit 3 "T" trW dvW).2[t]?).map (fun r => r.1.getCol "T")
        = some (trW.getCol (tsColName "T" t)) ∧
      ((LightGBMArray.fit 3 "T" trW dvW).2[t]?).map (fun r => r.2.getCol "T")
        = some (dvW.getCol (tsColName "T" t))) ∧
    (LightGBMArray.fit 3 "T" trW dvW).1.1.getCol "T"
      = trW.getCol (tsColName "T" (3 - 1)) ∧
    (LightGBMArray.fit 3 "T" trW dvW).1.2.getCol "T"
      = dvW.getCol (tsColName "T" (3 - 1)) :=
  lgbm_array_fit_substitution 3 "T" trW dvW (by decide) (by decide)

/- ------------------------------------------------------------------ -/
/- Claim C8                                                            -/
/- ------------------------------------------------------------------ -/

/-- Each iteration of the exhaustive refitting loop performs exactly one
additional `super().fit` pass. -/
theorem arFitStep_fold_count (predict : ℕ → DFrame → List Val) (cfg : TsCfg) :
    ∀ (l : List ℕ) (acc : (DFrame × DFrame) × ℕ),
      (l.foldl (arFitStep predict cfg) acc).2 = acc.2 + l.length := by
  intro l
  induction l with
  | nil => intro acc; rfl
  | cons t ts ih =>
      intro acc
      rw [List.foldl_cons, ih]
      simp [arFitStep]
      omega

/-- C8: an exhaustive autoregressive fit with horizon `H ≥ 1` performs
exactly `H - 1` refits beyond the initial step-1 fit (`1 + (H - 1)` fit
passes in total, one per step 2..H), and after the full fit the caller's
frames — in particular the target column — are restored to their original
pre-fit state. -/
theorem ar_exhaustive_fit_refit_count (predict : ℕ → DFrame → List Val)
    (cfg : TsCfg) (H : ℕ) (tr dv : DFrame) (h : 1 ≤ H) :
    (LightGBMArrayAR.fit predict cfg H true tr dv).2 = 1 + (H - 1) ∧
    (LightGBMArrayAR.fit predict cfg H true tr dv).1 = (tr, dv) ∧
    (LightGBMArrayAR.fit predict cfg H true tr dv).1.1.getCol cfg.target
      = tr.getCol cfg.target := by
  rw [LightGBMArrayAR.fit]
  dsimp only [if_pos rfl]
  rw [arFitStep_fold_count]
  simp

/-- C8 witness: the concrete exhaustive fit with `H = 3` performs
`1 + 2` fit passes (exactly two refits beyond the initial one) and hands
the original frames back. -/
theorem ar_exhaustive_fit_refit_count_witness :
    (LightGBMArrayAR.fit predictK cfgW 3 true trW dvW).2 = 1 + (3 - 1) ∧
    (LightGBMArrayAR.fit predictK cfgW 3 true trW dvW).1 = (trW, dvW) ∧
    (LightGBMArrayAR.fit predictK cfgW 3 true trW dvW).1.1.getCol cfgW.target
      = trW.getCol cfgW.target :=
  ar_exhaustive_fit_refit_count predictK cfgW 3 trW dvW (by decide)

/- ------------------------------------------------------------------ -/
/- Claim C10                                                           -/
/- ------------------------------------------------------------------ -/

/-- Dict assignment makes the key map to the assigned value. -/
theorem dictSet_lookup_self (d : DtypeDict) (k v : String) :
    (dictSet d k v).lookup k = some v := by
  rw [dictSet]
  by_cases h : d.any (fun e => e.1 == k) = true
  · rw [if_pos h]
    exact lookup_replace_self d k v h
  · rw [if_neg h]
    have habs : ∀ e ∈ d, e.1 ≠ k := by
      intro e he hc
      exact h (List.any_eq_true.mpr ⟨e, he, by simp [hc]⟩)
    rw [lookup_append_right d [(k, v)] k habs]
    simp [List.lookup_cons]

/-- C10: constructing any of the three time-series mixers mutates the
caller's `dtype_dict` in place: after `SkTime.__init__`,
`LightGBMArray.__init__` or `LightGBMArrayAR.__init__` (the latter through
the `self.dtype_dict` reference stored by the `LightGBM` superclass
constructor), the caller's dictionary maps the target to the float dtype;
whenever it did not already do so, the dictionary the caller owns has
visibly changed. -/
theorem mixer_init_mutates_dtype_dict (dd : DtypeDict) (target : String)
    (h : dd.lookup target ≠ some dtype.float) :
    (SkTime.initDtypeDict dd target).lookup target = some dtype.float ∧
    (LightGBMArray.initDtypeDict dd target).lookup target = some dtype.float ∧
    (LightGBMArrayAR.initDtypeDict dd target).lookup target = some dtype.float ∧
    SkTime.initDtypeDict dd target ≠ dd ∧
    LightGBMArray.initDtypeDict dd target ≠ dd ∧
    LightGBMArrayAR.initDtypeDict dd target ≠ dd := by
  have h1 : (SkTime.initDtypeDict dd target).lookup target = some dtype.float :=
    dictSet_lookup_self dd target dtype.float
  have h2 : (LightGBMArray.initDtypeDict dd target).lookup target = some dtype.float :=
    dictSet_lookup_self dd target dtype.float
  have h3 : (LightGBMArrayAR.initDtypeDict dd target).lookup target = some dtype.float :=
    dictSet_lookup_self dd target dtype.float
  refine ⟨h1, h2, h3, ?_, ?_, ?_⟩ <;>
    exact fun heq => h (heq ▸ dictSet_lookup_self dd target dtype.float)

/-- C10 witness: a concrete dict where the target is typed `int` maps it to
`float` after each constructor, and the dict has changed. -/
theorem mixer_init_mutates_dtype_dict_witness :
    (SkTime.initDtypeDict ddW "y").lookup "y" = some dtype.float ∧
    (LightGBMArray.initDtypeDict ddW "y").lookup "y" = some dtype.float ∧
    (LightGBMArrayAR.initDtypeDict ddW "y").lookup "y" = some dtype.float ∧
    SkTime.initDtypeDict ddW "y" ≠ ddW ∧
    LightGBMArray.initDtypeDict ddW "y" ≠ ddW ∧
    LightGBMArrayAR.initDtypeDict ddW "y" ≠ ddW :=
  mixer_init_mutates_dtype_dict ddW "y" (by decide)
